import Mathlib

/-!
Shallow embedding of the paper-trading bot (`trading_bot.py`, `config.py`,
`coinbase_api.py`).

Modelling conventions:
* Python floats are embedded as exact rationals `ℚ`.  All ledger arithmetic
  in the source is plain `+ - * /` on floats; the claims under study are
  about the algebraic structure of that arithmetic, which the rational
  embedding reproduces exactly.
* The price feed `self.api.get_current_price` is an oracle
  `price : String → Option ℚ`; `none` models `None` (feed unreachable).
  Python truthiness (`if not current_price`) treats both `None` and `0.0`
  as unavailable, captured by `price_available`.
* The positions dict `{asset: {'quantity': .., 'avg_price': ..}}` is an
  association list with Python-dict update semantics (in-place update of an
  existing key keeps its place, a fresh key is appended at the end).
* `datetime.now()` timestamps are wall-clock display strings and are not
  modelled in the trade record; no claim mentions them.
* `random.uniform` / `random.choice` in `make_trading_decision` are
  modelled by an oracle `draw` supplying the sampled trade amount; the
  displayed `current_quote` string is presentation-only and not part of the
  ledger state.
-/

namespace TradingBot

/-- One held position: `{'quantity': float, 'avg_price': float}`. -/
structure Position where
  quantity : ℚ
  avg_price : ℚ
deriving DecidableEq, Repr

/-- A trade record as built by `record_trade` (timestamp string omitted). -/
structure TradeRecord where
  action : String
  asset : String
  quantity : ℚ
  price : ℚ
  total : ℚ
  portfolio_value : ℚ
deriving DecidableEq, Repr

/-- The mutable ledger/trading state of `PaperTradingBot`. -/
structure BotState where
  cash_balance : ℚ
  positions : List (String × Position)
  trade_history : List TradeRecord
  last_trade_time : ℚ
deriving DecidableEq, Repr

/-- `config.py`: `INITIAL_BALANCE = 10000.0`. -/
def INITIAL_BALANCE : ℚ := 10000

/-- `config.py`: `TRADING_PAIRS = ['BTC-USD', 'ETH-USD', 'ADA-USD']`. -/
def TRADING_PAIRS : List String := ["BTC-USD", "ETH-USD", "ADA-USD"]

/-- `config.py`: `MAX_TRADE_AMOUNT = 1000.0`. -/
def MAX_TRADE_AMOUNT : ℚ := 1000

/-- `config.py`: `MIN_TRADE_AMOUNT = 50.0`. -/
def MIN_TRADE_AMOUNT : ℚ := 50

/-- `config.py`: `TRADE_INTERVAL = 30` (seconds between trade decisions). -/
def TRADE_INTERVAL : ℚ := 30

/-- `config.py`: `MAX_POSITION_SIZE = 0.2`. -/
def MAX_POSITION_SIZE : ℚ := 1/5

/-- The state at `__init__`: configured balance, no positions, empty history,
`last_trade_time = 0`. -/
def initialState : BotState :=
  { cash_balance := INITIAL_BALANCE
    positions := []
    trade_history := []
    last_trade_time := 0 }

/-- Python truthiness of an optional price: `None` and `0.0` are falsy
(`if not current_price: ...`). -/
def price_available : Option ℚ → Bool
  | none => false
  | some p => p != 0

/-- Dict lookup `self.positions[asset]` / membership `asset in self.positions`. -/
def lookupPos : List (String × Position) → String → Option Position
  | [], _ => none
  | (b, q) :: rest, a => if b = a then some q else lookupPos rest a

/-- Dict assignment `self.positions[asset] = pos`: update an existing key in
place, else append the new key at the end (Python dict insertion order). -/
def setPos : List (String × Position) → String → Position → List (String × Position)
  | [], a, p => [(a, p)]
  | (b, q) :: rest, a, p => if b = a then (a, p) :: rest else (b, q) :: setPos rest a p

/-- Dict deletion `del self.positions[asset]`. -/
def delPos : List (String × Position) → String → List (String × Position)
  | [], _ => []
  | (b, q) :: rest, a => if b = a then rest else (b, q) :: delPos rest a

/-- Python `round(x, n)` embedded on rationals: round `x` to `n` decimal
places.  (Mathlib `round` breaks exact ties upward while CPython uses
round-half-even on the binary value; no claim depends on tie behaviour.) -/
def roundTo (n : ℕ) (x : ℚ) : ℚ := (round (x * 10 ^ n) : ℤ) / 10 ^ n

/-- The value a single position adds inside `get_portfolio_value`: the live
price times quantity when the price is truthy, else nothing is added. -/
def positionContribution (p : Option ℚ) (pos : Position) : ℚ :=
  match p with
  | some q => if q = 0 then 0 else pos.quantity * q
  | none => 0

/-- The `for asset, position in self.positions.items()` accumulation of
`get_portfolio_value`. -/
def positionsValue (price : String → Option ℚ) : List (String × Position) → ℚ
  | [] => 0
  | (a, pos) :: rest => positionContribution (price a) pos + positionsValue price rest

/-- `get_portfolio_value` (`trading_bot.py` 38-48): cash plus each position's
live value, rounded to 2 decimals. -/
def get_portfolio_value (price : String → Option ℚ) (s : BotState) : ℚ :=
  roundTo 2 (s.cash_balance + positionsValue price s.positions)

/-- `get_position_value` (`trading_bot.py` 50-56). -/
def get_position_value (price : String → Option ℚ) (s : BotState) (asset : String) : ℚ :=
  match lookupPos s.positions asset with
  | some pos =>
    match price asset with
    | some p => if p = 0 then 0 else roundTo 2 (pos.quantity * p)
    | none => 0
  | none => 0

/-- The record built at `trading_bot.py` 135-143 (timestamp omitted; the
`portfolio_value` field is computed on the already-mutated state `s`). -/
def mkTradeRecord (price : String → Option ℚ) (s : BotState)
    (action asset : String) (quantity p total : ℚ) : TradeRecord :=
  { action := action
    asset := asset
    quantity := roundTo 6 quantity
    price := roundTo 2 p
    total := roundTo 2 total
    portfolio_value := get_portfolio_value price s }

/-- `record_trade` (`trading_bot.py` 133-148): append the record, then
`if len(self.trade_history) > 50: self.trade_history.pop(0)`. -/
def record_trade (price : String → Option ℚ) (s : BotState)
    (action asset : String) (quantity p total : ℚ) : BotState :=
  let hist := s.trade_history ++ [mkTradeRecord price s action asset quantity p total]
  { s with trade_history := if 50 < hist.length then hist.tail else hist }

/-- `execute_buy` (`trading_bot.py` 69-100).  Returns the Python return value
paired with the post-state.  Note: when an existing position and a negative
`amount` make `old_quantity + quantity = 0`, CPython raises
`ZeroDivisionError` at the `new_avg_price` line; the total model evaluates
that division to `0` instead.  No claim's truth hinges on that state. -/
def execute_buy (price : String → Option ℚ) (s : BotState)
    (asset : String) (amount : ℚ) : Bool × BotState :=
  match price asset with
  | none => (false, s)
  | some p =>
    if p = 0 ∨ amount > s.cash_balance then (false, s)
    else
      let quantity := amount / p
      let cost := quantity * p
      let s1 := { s with cash_balance := s.cash_balance - cost }
      let s2 :=
        match lookupPos s1.positions asset with
        | some old =>
          let new_quantity := old.quantity + quantity
          let new_avg_price := (old.quantity * old.avg_price + cost) / new_quantity
          { s1 with positions := setPos s1.positions asset ⟨new_quantity, new_avg_price⟩ }
        | none =>
          { s1 with positions := setPos s1.positions asset ⟨quantity, p⟩ }
      (true, record_trade price s2 "buy" asset quantity p cost)

/-- `execute_sell` (`trading_bot.py` 102-131). -/
def execute_sell (price : String → Option ℚ) (s : BotState)
    (asset : String) (amount : ℚ) : Bool × BotState :=
  match lookupPos s.positions asset with
  | none => (false, s)
  | some pos =>
    match price asset with
    | none => (false, s)
    | some p =>
      if p = 0 then (false, s)
      else
        let quantity_to_sell :=
          if amount / p > pos.quantity then pos.quantity else amount / p
        let proceeds := quantity_to_sell * p
        let s1 := { s with cash_balance := s.cash_balance + proceeds }
        let remaining := pos.quantity - quantity_to_sell
        let s2 :=
          if remaining ≤ 0 then { s1 with positions := delPos s1.positions asset }
          else { s1 with positions := setPos s1.positions asset ⟨remaining, pos.avg_price⟩ }
        (true, record_trade price s2 "sell" asset quantity_to_sell p proceeds)

/-- The 24-hour statistics dict returned by `get_24hr_stats`.  Both API
implementations always populate all four keys, so the `stats.get(key,
current_price)` defaults in `analyze_market` never fire and the fields are
total.  Field names follow the locals of `analyze_market`. -/
structure DayStats where
  open_price : ℚ
  high_price : ℚ
  low_price : ℚ
  volume : ℚ
deriving DecidableEq, Repr

/-- The analysis dict returned by `analyze_market`.  The degraded branch
(`not current_price or not stats`) returns only `signal` and `confidence`,
so the remaining fields are optional. -/
structure Signal where
  signal : String
  confidence : ℚ
  price_change_pct : Option ℚ
  volatility : Option ℚ
  current_price : Option ℚ
deriving DecidableEq, Repr

/-- `analyze_market` (`trading_bot.py` 150-191) as a function of the two API
responses it reads.  `if not current_price or not stats` is Python
truthiness, so a price of `0.0` also takes the degraded branch. -/
def analyze_market (current_price : Option ℚ) (stats : Option DayStats) : Signal :=
  match current_price, stats with
  | some cp, some st =>
    if cp = 0 then ⟨"hold", 0, none, none, none⟩
    else
      let open_price := st.open_price
      let price_change := cp - open_price
      let price_change_pct := price_change / open_price * 100
      let volatility := (st.high_price - st.low_price) / open_price
      let sc : String × ℚ :=
        if price_change_pct > 2 ∧ volatility < 1/10 then ("buy", 7/10)
        else if price_change_pct < -2 ∧ volatility < 1/10 then ("sell", 7/10)
        else if price_change_pct > 5 then ("sell", 6/10)
        else if price_change_pct < -5 then ("buy", 6/10)
        else ("hold", 1/2)
      ⟨sc.1, sc.2, some (roundTo 2 price_change_pct),
        some (roundTo 2 (volatility * 100)), some cp⟩
  | _, _ => ⟨"hold", 0, none, none, none⟩

/-- `max(decisions, key=lambda x: x['confidence'])`: Python `max` keeps the
first element among equals, replacing only on strictly greater key. -/
def pickBest : List (String × Signal) → Option (String × Signal)
  | [] => none
  | x :: xs =>
    some (xs.foldl (fun best y => if y.2.confidence > best.2.confidence then y else best) x)

/-- The decision dict returned by `make_trading_decision` on success. -/
structure Decision where
  asset : String
  signal : String
  confidence : ℚ
  trade_amount : ℚ
deriving DecidableEq, Repr

/-- The `decisions` list built in `make_trading_decision` (lines 199-209):
per trading pair, keep the analysis when `confidence > 0.6`. -/
def decisionCandidates (price : String → Option ℚ)
    (stats : String → Option DayStats) : List (String × Signal) :=
  TRADING_PAIRS.filterMap (fun a =>
    let analysis := analyze_market (price a) (stats a)
    if analysis.confidence > 6/10 then some (a, analysis) else none)

/-- The execution block of `make_trading_decision` (lines 222-229): buy when
the signal is buy and cash covers the amount; on a sell signal, sell
`min(trade_amount, position_value)` when the position value is positive;
otherwise no execution (`success = False`, state untouched). -/
def tradeAttempt (price : String → Option ℚ) (s : BotState)
    (best : String × Signal) (trade_amount : ℚ) : Bool × BotState :=
  if best.2.signal = "buy" ∧ s.cash_balance ≥ trade_amount then
    execute_buy price s best.1 trade_amount
  else if best.2.signal = "sell" then
    if get_position_value price s best.1 > 0 then
      execute_sell price s best.1 (min trade_amount (get_position_value price s best.1))
    else (false, s)
  else (false, s)

/-- `make_trading_decision` (`trading_bot.py` 193-240).  `now` is
`time.time()`; `stats` is the `get_24hr_stats` oracle; `draw a b` is the
`random.uniform(a, b)` sample.  The `current_quote` refresh on success is
presentation-only and not part of the modelled state. -/
def make_trading_decision (price : String → Option ℚ) (stats : String → Option DayStats)
    (now : ℚ) (draw : ℚ → ℚ → ℚ) (s : BotState) : Option Decision × BotState :=
  if now - s.last_trade_time < TRADE_INTERVAL then (none, s)
  else
    match pickBest (decisionCandidates price stats) with
    | none => (none, s)
    | some best =>
      let portfolio_value := get_portfolio_value price s
      let max_amount := min MAX_TRADE_AMOUNT (portfolio_value * MAX_POSITION_SIZE)
      let trade_amount := draw MIN_TRADE_AMOUNT max_amount
      let attempt := tradeAttempt price s best trade_amount
      if attempt.1 then
        (some ⟨best.1, best.2.signal, best.2.confidence, trade_amount⟩,
          { attempt.2 with last_trade_time := now })
      else (none, attempt.2)

/-- Well-formedness of the association-list model of a Python dict: every key
occurs at most once.  States built from `{}` by key assignment and deletion
always satisfy it. -/
def NodupKeys (m : List (String × Position)) : Prop := (m.map Prod.fst).Nodup

instance (m : List (String × Position)) : Decidable (NodupKeys m) :=
  inferInstanceAs (Decidable (m.map Prod.fst).Nodup)

/-- The ordered rule set of spec §4.2 step 4 (first match wins), as a
function of the two derived indicators.  This is the spec-side description
that `analyze_market` is compared against. -/
def ruleCascade (price_change_pct volatility : ℚ) : String × ℚ :=
  if price_change_pct > 2 ∧ volatility < 1/10 then ("buy", 7/10)
  else if price_change_pct < -2 ∧ volatility < 1/10 then ("sell", 7/10)
  else if price_change_pct > 5 then ("sell", 6/10)
  else if price_change_pct < -5 then ("buy", 6/10)
  else ("hold", 1/2)

/-- Appending a record under the 50-entry cap of `record_trade`. -/
def capAppend (h : List TradeRecord) (r : TradeRecord) : List TradeRecord :=
  if 50 < (h ++ [r]).length then (h ++ [r]).tail else h ++ [r]

/-- A reachable ledger state whose cash has sub-cent precision (0.004 USD),
used to exhibit the output-rounding slack of `get_portfolio_value`. -/
def lowCashState : BotState := ⟨1/250, [], [], 0⟩

/-- A ledger state holding 2 ETH-USD at average cost 5. -/
def ethPosState : BotState := ⟨100, [("ETH-USD", ⟨2, 5⟩)], [], 0⟩

theorem lookupPos_setPos_self (m : List (String × Position)) (a : String) (p : Position) :
    lookupPos (setPos m a p) a = some p := by
  induction m with
  | nil => simp [setPos, lookupPos]
  | cons hd tl ih =>
    obtain ⟨b, q⟩ := hd
    by_cases hb : b = a
    · simp [setPos, hb, lookupPos]
    · simp [setPos, hb, lookupPos, ih]

theorem lookupPos_setPos_ne (m : List (String × Position)) (a b : String) (p : Position)
    (h : b ≠ a) : lookupPos (setPos m a p) b = lookupPos m b := by
  induction m with
  | nil => simp [setPos, lookupPos, Ne.symm h]
  | cons hd tl ih =>
    obtain ⟨c, q⟩ := hd
    by_cases hc : c = a
    · subst hc
      simp [setPos, lookupPos, Ne.symm h]
    · simp [setPos, hc, lookupPos, ih]

theorem lookupPos_delPos_ne (m : List (String × Position)) (a b : String)
    (h : b ≠ a) : lookupPos (delPos m a) b = lookupPos m b := by
  induction m with
  | nil => simp [delPos]
  | cons hd tl ih =>
    obtain ⟨c, q⟩ := hd
    by_cases hc : c = a
    · subst hc
      simp [delPos, lookupPos, Ne.symm h]
    · simp [delPos, hc, lookupPos, ih]

theorem mem_setPos {m : List (String × Position)} {a : String} {p : Position}
    {x : String × Position} (hx : x ∈ setPos m a p) : x = (a, p) ∨ x ∈ m := by
  induction m with
  | nil => simpa [setPos] using hx
  | cons hd tl ih =>
    obtain ⟨c, q⟩ := hd
    by_cases hc : c = a
    · rcases (by simpa [setPos, hc] using hx : x = (a, p) ∨ x ∈ tl) with h | h
      · exact Or.inl h
      · exact Or.inr (List.mem_cons_of_mem _ h)
    · rcases (by simpa [setPos, hc] using hx : x = (c, q) ∨ x ∈ setPos tl a p) with h | h
      · exact Or.inr (by simp [h])
      · rcases ih h with h2 | h2
        · exact Or.inl h2
        · exact Or.inr (List.mem_cons_of_mem _ h2)

theorem delPos_sublist (m : List (String × Position)) (a : String) :
    List.Sublist (delPos m a) m := by
  induction m with
  | nil => simp [delPos]
  | cons hd tl ih =>
    obtain ⟨c, q⟩ := hd
    by_cases hc : c = a
    · rw [delPos, if_pos hc]
      exact List.sublist_cons_self (c, q) tl
    · rw [delPos, if_neg hc]
      exact ih.cons₂ (c, q)

theorem mem_delPos {m : List (String × Position)} {a : String}
    {x : String × Position} (hx : x ∈ delPos m a) : x ∈ m :=
  (delPos_sublist m a).mem hx

theorem lookupPos_eq_none_of_not_mem (m : List (String × Position)) (a : String)
    (h : a ∉ m.map Prod.fst) : lookupPos m a = none := by
  induction m with
  | nil => rfl
  | cons hd tl ih =>
    obtain ⟨c, q⟩ := hd
    simp only [List.map_cons, List.mem_cons] at h
    push_neg at h
    simp [lookupPos, Ne.symm h.1, ih h.2]

theorem lookupPos_delPos_self (m : List (String × Position)) (a : String)
    (h : NodupKeys m) : lookupPos (delPos m a) a = none := by
  induction m with
  | nil => rfl
  | cons hd tl ih =>
    obtain ⟨c, q⟩ := hd
    simp only [NodupKeys, List.map_cons, List.nodup_cons] at h
    by_cases hc : c = a
    · subst hc
      simp [delPos, lookupPos_eq_none_of_not_mem tl c h.1]
    · simp [delPos, hc, lookupPos, ih h.2]

theorem lookupPos_mem {m : List (String × Position)} {a : String} {p : Position}
    (h : lookupPos m a = some p) : (a, p) ∈ m := by
  induction m with
  | nil => simp [lookupPos] at h
  | cons hd tl ih =>
    obtain ⟨c, q⟩ := hd
    by_cases hc : c = a
    · subst hc
      simp [lookupPos] at h
      simp [h]
    · simp only [lookupPos, if_neg hc] at h
      exact List.mem_cons_of_mem _ (ih h)

theorem roundTo_mono (n : ℕ) {x y : ℚ} (h : x ≤ y) : roundTo n x ≤ roundTo n y := by
  unfold roundTo
  have hpow : (0 : ℚ) < 10 ^ n := by positivity
  have hmul : x * 10 ^ n ≤ y * 10 ^ n := by
    exact mul_le_mul_of_nonneg_right h hpow.le
  have hr : round (x * 10 ^ n) ≤ round (y * 10 ^ n) := by
    rw [round_eq, round_eq]
    exact Int.floor_le_floor (by linarith)
  have hr2 : ((round (x * 10 ^ n) : ℤ) : ℚ) ≤ ((round (y * 10 ^ n) : ℤ) : ℚ) := by
    exact_mod_cast hr
  exact (div_le_div_iff_of_pos_right hpow).mpr hr2

theorem positionsValue_nonneg (price : String → Option ℚ) (m : List (String × Position))
    (h : ∀ e ∈ m, 0 ≤ positionContribution (price e.1) e.2) :
    0 ≤ positionsValue price m := by
  induction m with
  | nil => simp [positionsValue]
  | cons hd tl ih =>
    obtain ⟨a, pos⟩ := hd
    have h1 := h (a, pos) (by simp)
    have h2 := ih (fun e he => h e (List.mem_cons_of_mem _ he))
    simp only [positionsValue]
    linarith

theorem record_trade_cash_eq (price : String → Option ℚ) (s : BotState)
    (action asset : String) (q p t : ℚ) :
    (record_trade price s action asset q p t).cash_balance = s.cash_balance := rfl

theorem record_trade_positions_eq (price : String → Option ℚ) (s : BotState)
    (action asset : String) (q p t : ℚ) :
    (record_trade price s action asset q p t).positions = s.positions := rfl

theorem execute_buy_fail_state (price : String → Option ℚ) (s : BotState)
    (asset : String) (amount : ℚ) (h : (execute_buy price s asset amount).1 = false) :
    (execute_buy price s asset amount).2 = s := by
  unfold execute_buy at h ⊢
  rcases hp : price asset with _ | p
  · rfl
  · rw [hp] at h
    by_cases hg : p = 0 ∨ amount > s.cash_balance
    · simp [hg]
    · simp [hg] at h

theorem execute_sell_fail_state (price : String → Option ℚ) (s : BotState)
    (asset : String) (amount : ℚ) (h : (execute_sell price s asset amount).1 = false) :
    (execute_sell price s asset amount).2 = s := by
  unfold execute_sell at h ⊢
  rcases hl : lookupPos s.positions asset with _ | pos
  · rfl
  · rw [hl] at h
    rcases hp : price asset with _ | p
    · rfl
    · rw [hp] at h
      by_cases hg : p = 0
      · simp [hg]
      · simp [hg] at h

/-- Claim C1: `execute_buy` returns `false` and changes no state exactly when
the price is unavailable or `amount > cash_balance`; on success the bought
quantity is `amount / price`, the cash balance drops by exactly
`quantity × price` (which is at most the prior cash balance), a fresh
position is created at the current price, and an existing position is
weight-averaged by `new_avg = (old_qty*old_avg + cost) / (old_qty + quantity)`
with `cost = quantity × price`. -/
theorem execute_buy_spec (price : String → Option ℚ) (s : BotState)
    (asset : String) (amount : ℚ) :
    (((execute_buy price s asset amount).1 = false
        ∧ (execute_buy price s asset amount).2 = s) ↔
      (price_available (price asset) = false ∨ amount > s.cash_balance))
    ∧ (∀ p : ℚ, price asset = some p → p ≠ 0 → amount ≤ s.cash_balance →
        (execute_buy price s asset amount).1 = true
        ∧ (execute_buy price s asset amount).2.cash_balance
            = s.cash_balance - (amount / p) * p
        ∧ (amount / p) * p ≤ s.cash_balance
        ∧ (lookupPos s.positions asset = none →
            lookupPos (execute_buy price s asset amount).2.positions asset
              = some ⟨amount / p, p⟩)
        ∧ (∀ old : Position, lookupPos s.positions asset = some old →
            lookupPos (execute_buy price s asset amount).2.positions asset
              = some ⟨old.quantity + amount / p,
                  (old.quantity * old.avg_price + (amount / p) * p)
                    / (old.quantity + amount / p)⟩)) := by
  rcases hp : price asset with _ | p
  · refine ⟨?_, ?_⟩
    · simp [execute_buy, hp, price_available]
    · intro q hq
      exact absurd hq (by simp)
  · by_cases h0 : p = 0
    · subst h0
      refine ⟨?_, ?_⟩
      · simp [execute_buy, hp, price_available]
      · intro q hq h0q
        injection hq with hq
        exact absurd hq.symm h0q
    · by_cases hamt : amount > s.cash_balance
      · refine ⟨?_, ?_⟩
        · simp [execute_buy, hp, price_available, h0, hamt]
        · intro q hq h0q hle
          exact absurd hamt (not_lt.mpr hle)
      · have hguard : ¬(p = 0 ∨ amount > s.cash_balance) := not_or.mpr ⟨h0, hamt⟩
        refine ⟨?_, ?_⟩
        · simp [execute_buy, hp, price_available, h0, hamt, hguard]
        · intro q hq h0q hle
          injection hq with hq
          subst hq
          rcases hl : lookupPos s.positions asset with _ | old
          · refine ⟨?_, ?_, ?_, ?_, ?_⟩
            · simp [execute_buy, hp, hguard]
            · simp [execute_buy, hp, hguard, hl, record_trade]
            · rw [div_mul_cancel₀ amount h0q]
              exact hle
            · intro _
              simp [execute_buy, hp, hguard, hl, record_trade, lookupPos_setPos_self]
            · intro old hold
              exact absurd hold (by simp)
          · refine ⟨?_, ?_, ?_, ?_, ?_⟩
            · simp [execute_buy, hp, hguard]
            · simp [execute_buy, hp, hguard, hl, record_trade]
            · rw [div_mul_cancel₀ amount h0q]
              exact hle
            · intro hnone
              exact absurd hnone (by simp)
            · intro old2 hold
              injection hold with hold
              subst hold
              simp [execute_buy, hp, hguard, hl, record_trade, lookupPos_setPos_self]

/-- Witness for C1: the spec §8 scenario — buy 1000 USD of BTC-USD at price
45000 from the initial state succeeds and cash drops by the re-derived
notional. -/
theorem execute_buy_spec_witness :
    (execute_buy (fun _ => some 45000) initialState "BTC-USD" 1000).1 = true
    ∧ (execute_buy (fun _ => some 45000) initialState "BTC-USD" 1000).2.cash_balance
        = initialState.cash_balance - (1000 / 45000) * 45000 := by
  have h := (execute_buy_spec (fun _ => some 45000) initialState "BTC-USD" 1000).2 45000 rfl
    (by norm_num) (by norm_num [initialState, INITIAL_BALANCE])
  exact ⟨h.1, h.2.1⟩

/-- Claim C2: `execute_sell` fails exactly when no position exists or the
price is unavailable; on success it sells `amount / price` clamped to the
held quantity, adds the proceeds to cash, deletes the position when the
remainder is ≤ 0 and otherwise keeps it with the (positive) remainder; a
request exceeding the position value (at a positive price) liquidates the
whole position, removes it, and adds exactly `quantity_held × price`. -/
theorem execute_sell_spec (price : String → Option ℚ) (s : BotState)
    (asset : String) (amount : ℚ) :
    ((execute_sell price s asset amount).1 = false ↔
      (lookupPos s.positions asset = none ∨ price_available (price asset) = false))
    ∧ (∀ (pos : Position) (p : ℚ), lookupPos s.positions asset = some pos →
        price asset = some p → p ≠ 0 →
        (execute_sell price s asset amount).1 = true
        ∧ (execute_sell price s asset amount).2.cash_balance
            = s.cash_balance
              + (if amount / p > pos.quantity then pos.quantity else amount / p) * p
        ∧ (NodupKeys s.positions →
            pos.quantity
              - (if amount / p > pos.quantity then pos.quantity else amount / p) ≤ 0 →
            lookupPos (execute_sell price s asset amount).2.positions asset = none)
        ∧ (0 < pos.quantity
              - (if amount / p > pos.quantity then pos.quantity else amount / p) →
            lookupPos (execute_sell price s asset amount).2.positions asset
              = some ⟨pos.quantity
                  - (if amount / p > pos.quantity then pos.quantity else amount / p),
                  pos.avg_price⟩)
        ∧ (amount > pos.quantity * p → 0 < p → NodupKeys s.positions →
            (execute_sell price s asset amount).2.cash_balance
                = s.cash_balance + pos.quantity * p
            ∧ lookupPos (execute_sell price s asset amount).2.positions asset = none)) := by
  rcases hl : lookupPos s.positions asset with _ | pos0
  · refine ⟨?_, ?_⟩
    · simp [execute_sell, hl, price_available]
    · intro pos p hpos
      exact absurd hpos (by simp)
  · rcases hp : price asset with _ | p
    · refine ⟨?_, ?_⟩
      · simp [execute_sell, hl, hp, price_available]
      · intro pos p hpos hq
        exact absurd hq (by simp)
    · by_cases h0 : p = 0
      · subst h0
        refine ⟨?_, ?_⟩
        · simp [execute_sell, hl, hp, price_available]
        · intro pos q hpos hq h0q
          injection hq with hq
          exact absurd hq.symm h0q
      · refine ⟨?_, ?_⟩
        · simp [execute_sell, hl, hp, price_available, h0]
        · intro pos q hpos hq h0q
          injection hpos with hpos
          injection hq with hq
          subst hpos
          subst hq
          by_cases hclamp : amount / p > pos0.quantity
          · refine ⟨?_, ?_, ?_, ?_, ?_⟩
            · simp [execute_sell, hl, hp, h0]
            · simp [execute_sell, hl, hp, h0, hclamp, record_trade]
            · intro hnd _
              simp [execute_sell, hl, hp, h0, hclamp, record_trade,
                lookupPos_delPos_self s.positions asset hnd]
            · intro hrem
              simp [hclamp] at hrem
            · intro _ _ hnd
              refine ⟨?_, ?_⟩
              · simp [execute_sell, hl, hp, h0, hclamp, record_trade]
              · simp [execute_sell, hl, hp, h0, hclamp, record_trade,
                  lookupPos_delPos_self s.positions asset hnd]
          · have hnc : ∀ hamt : amount > pos0.quantity * p, ∀ hppos : 0 < p, False := by
              intro hamt hppos
              exact hclamp ((lt_div_iff₀ hppos).mpr hamt)
            by_cases hrem0 : pos0.quantity - amount / p ≤ 0
            · refine ⟨?_, ?_, ?_, ?_, ?_⟩
              · simp [execute_sell, hl, hp, h0]
              · simp [execute_sell, hl, hp, h0, hclamp, record_trade]
                split <;> rfl
              · intro hnd _
                simp [execute_sell, hl, hp, h0, hclamp, hrem0, record_trade,
                  lookupPos_delPos_self s.positions asset hnd]
              · intro hrem
                rw [if_neg hclamp] at hrem
                exact absurd hrem0 (not_le.mpr hrem)
              · intro hamt hppos _
                exact absurd hamt (by
                  intro hamt2
                  exact hnc hamt2 hppos)
            · refine ⟨?_, ?_, ?_, ?_, ?_⟩
              · simp [execute_sell, hl, hp, h0]
              · simp [execute_sell, hl, hp, h0, hclamp, record_trade]
                split <;> rfl
              · intro _ hrem
                rw [if_neg hclamp] at hrem
                exact absurd hrem hrem0
              · intro _
                simp [execute_sell, hl, hp, h0, hclamp, hrem0, record_trade,
                  lookupPos_setPos_self]
              · intro hamt hppos _
                exact absurd hamt (by
                  intro hamt2
                  exact hnc hamt2 hppos)

/-- Witness for C2: the spec §8 liquidation scenario — selling 100 USD of a
position worth 20 USD (2 units at price 10) liquidates the whole position
and credits exactly `2 × 10`. -/
theorem execute_sell_spec_witness :
    (execute_sell (fun _ => some 10)
      { cash_balance := 100, positions := [("BTC-USD", ⟨2, 5⟩)],
        trade_history := [], last_trade_time := 0 } "BTC-USD" 100).1 = true
    ∧ (execute_sell (fun _ => some 10)
      { cash_balance := 100, positions := [("BTC-USD", ⟨2, 5⟩)],
        trade_history := [], last_trade_time := 0 } "BTC-USD" 100).2.cash_balance = 120
    ∧ lookupPos (execute_sell (fun _ => some 10)
      { cash_balance := 100, positions := [("BTC-USD", ⟨2, 5⟩)],
        trade_history := [], last_trade_time := 0 } "BTC-USD" 100).2.positions "BTC-USD"
      = none := by
  have h := (execute_sell_spec (fun _ => some 10)
    { cash_balance := 100, positions := [("BTC-USD", ⟨2, 5⟩)],
      trade_history := [], last_trade_time := 0 } "BTC-USD" 100).2 ⟨2, 5⟩ 10
    rfl rfl (by norm_num)
  have h5 := h.2.2.2.2 (by norm_num) (by norm_num) (by decide)
  refine ⟨h.1, ?_, h5.2⟩
  rw [h5.1]
  norm_num

/-- Counterexample to C3 as stated: at open=100, current=106 with LOW
volatility (high=101, low=100) the first rule of the cascade fires, giving
buy/0.7 — not the claimed sell/0.6.  Evaluation order favours the earlier
>2%/low-volatility buy rule, so the claim's scenario holds only when
volatility is at least 0.1. -/
theorem analyze_market_scenario_counterexample :
    (analyze_market (some 106) (some ⟨100, 101, 100, 1000000⟩)).signal = "buy"
    ∧ (analyze_market (some 106) (some ⟨100, 101, 100, 1000000⟩)).confidence = 7/10 := by
  constructor <;> norm_num [analyze_market]

/-- Claim C3 (amended): `analyze_market` applies the ordered rule cascade
(first match wins) to `price_change_pct` and `volatility`, returns hold/0.0
when either input is absent, and at open=100, current=106 WITH the
API-shaped stats (high=111.3, low=100.7, so volatility = 0.106 ≥ 0.1) the
later overbought rule applies and yields sell/0.6. -/
theorem analyze_market_rules :
    (∀ (cp : ℚ) (st : DayStats), cp ≠ 0 →
      ((analyze_market (some cp) (some st)).signal,
        (analyze_market (some cp) (some st)).confidence)
        = ruleCascade ((cp - st.open_price) / st.open_price * 100)
            ((st.high_price - st.low_price) / st.open_price))
    ∧ (∀ stats : Option DayStats,
        analyze_market none stats = ⟨"hold", 0, none, none, none⟩)
    ∧ (∀ cp : ℚ, analyze_market (some cp) none = ⟨"hold", 0, none, none, none⟩)
    ∧ ((analyze_market (some 106) (some ⟨100, 1113/10, 1007/10, 1000000⟩)).signal = "sell"
        ∧ (analyze_market (some 106) (some ⟨100, 1113/10, 1007/10, 1000000⟩)).confidence
            = 6/10) := by
  refine ⟨?_, ?_, ?_, ?_⟩
  · intro cp st hcp
    simp [analyze_market, ruleCascade, hcp]
  · intro stats
    cases stats <;> rfl
  · intro cp
    rfl
  · constructor <;> norm_num [analyze_market]

/-- Witness for C3 (amended): the cascade equation applied at the spec §8
buy scenario (open=100, high=102, low=99, current=103). -/
theorem analyze_market_rules_witness :
    ((analyze_market (some 103) (some ⟨100, 102, 99, 1000000⟩)).signal,
      (analyze_market (some 103) (some ⟨100, 102, 99, 1000000⟩)).confidence)
      = ruleCascade ((103 - 100) / 100 * 100) ((102 - 99) / 100) := by
  exact analyze_market_rules.1 103 ⟨100, 102, 99, 1000000⟩ (by norm_num)

/-- Counterexample to C9 as stated: `get_portfolio_value` rounds its result
to 2 decimals, so with cash 1/250 (= 0.004 USD) and no positions (every
position trivially contributes a non-negative value) the result 0 is
strictly BELOW `cash_balance`. -/
theorem portfolio_value_counterexample :
    get_portfolio_value (fun _ => none) lowCashState < lowCashState.cash_balance := by
  norm_num [get_portfolio_value, positionsValue, roundTo, round_eq, lowCashState]

/-- Claim C9 (amended): when every held position contributes a non-negative
value (price unavailable contributing 0), `get_portfolio_value` dominates
the cash balance up to the function's own 2-decimal output rounding:
`roundTo 2 cash_balance ≤ portfolio_value()`. -/
theorem portfolio_value_ge_cash (price : String → Option ℚ) (s : BotState)
    (h : ∀ e ∈ s.positions, 0 ≤ positionContribution (price e.1) e.2) :
    roundTo 2 s.cash_balance ≤ get_portfolio_value price s := by
  unfold get_portfolio_value
  refine roundTo_mono 2 ?_
  have := positionsValue_nonneg price s.positions h
  linarith

/-- Witness for C9 (amended) at a one-position state with a live price. -/
theorem portfolio_value_ge_cash_witness :
    roundTo 2 ethPosState.cash_balance
      ≤ get_portfolio_value (fun _ => some 10) ethPosState := by
  refine portfolio_value_ge_cash (fun _ => some 10) ethPosState ?_
  intro e he
  rw [show ethPosState.positions = [("ETH-USD", ⟨2, 5⟩)] from rfl,
    List.mem_singleton] at he
  subst he
  norm_num [positionContribution]

/-- Counterexample to C4 as stated: from a state with cash 0 and a unit
position, a sell with NEGATIVE usd_amount (-20) succeeds and drives the
cash balance to -20 < 0, so `cash_balance ≥ 0` is not preserved for every
usd_amount. -/
theorem cash_nonneg_counterexample :
    (execute_sell (fun _ => some 10)
        { cash_balance := 0, positions := [("BTC-USD", ⟨1, 10⟩)],
          trade_history := [], last_trade_time := 0 } "BTC-USD" (-20)).1 = true
    ∧ (execute_sell (fun _ => some 10)
        { cash_balance := 0, positions := [("BTC-USD", ⟨1, 10⟩)],
          trade_history := [], last_trade_time := 0 }
        "BTC-USD" (-20)).2.cash_balance < 0 := by
  refine ⟨rfl, ?_⟩
  norm_num [execute_sell, lookupPos, record_trade]

/-- Claim C4 (amended): from any state with `cash_balance ≥ 0`,
`execute_buy` preserves non-negative cash for every asset, usd_amount and
price oracle, and `execute_sell` preserves it for every usd_amount ≥ 0
provided the sold position's quantity is non-negative. -/
theorem cash_nonneg_preserved (price : String → Option ℚ) (s : BotState)
    (asset : String) (amount : ℚ) (hcash : 0 ≤ s.cash_balance) :
    0 ≤ (execute_buy price s asset amount).2.cash_balance
    ∧ (0 ≤ amount →
        (∀ pos : Position, lookupPos s.positions asset = some pos → 0 ≤ pos.quantity) →
        0 ≤ (execute_sell price s asset amount).2.cash_balance) := by
  constructor
  · rcases hp : price asset with _ | p
    · simpa [execute_buy, hp] using hcash
    · by_cases hg : p = 0 ∨ amount > s.cash_balance
      · simpa [execute_buy, hp, hg] using hcash
      · push_neg at hg
        obtain ⟨hp0, hamt⟩ := hg
        have hguard : ¬(p = 0 ∨ amount > s.cash_balance) :=
          not_or.mpr ⟨hp0, not_lt.mpr hamt⟩
        rcases hl : lookupPos s.positions asset with _ | old <;>
          · simp [execute_buy, hp, hguard, hl, record_trade,
              div_mul_cancel₀ amount hp0]
            linarith
  · intro hamt hq
    rcases hl : lookupPos s.positions asset with _ | pos
    · simpa [execute_sell, hl] using hcash
    · rcases hp : price asset with _ | p
      · simpa [execute_sell, hl, hp] using hcash
      · by_cases h0 : p = 0
        · simpa [execute_sell, hl, hp, h0] using hcash
        · have hqpos : 0 ≤ pos.quantity := hq pos hl
          by_cases hclamp : amount / p > pos.quantity
          · have hppos : 0 < p := by
              rcases lt_trichotomy p 0 with hneg | hzero | hposi
              · exact absurd (lt_of_le_of_lt hqpos hclamp)
                  (not_lt.mpr (div_nonpos_of_nonneg_of_nonpos hamt hneg.le))
              · exact absurd hzero h0
              · exact hposi
            have hprod : 0 ≤ pos.quantity * p := mul_nonneg hqpos hppos.le
            simp [execute_sell, hl, hp, h0, hclamp, record_trade]
            linarith
          · simp [execute_sell, hl, hp, h0, hclamp, record_trade]
            split <;> (simp only [] ; linarith)

/-- Witness for C4 (amended): buy and sell of 500 USD at price 45000 from
the initial state both leave cash non-negative. -/
theorem cash_nonneg_preserved_witness :
    0 ≤ (execute_buy (fun _ => some 45000) initialState "ETH-USD" 500).2.cash_balance
    ∧ 0 ≤ (execute_sell (fun _ => some 45000) initialState "ETH-USD" 500).2.cash_balance := by
  have h := cash_nonneg_preserved (fun _ => some 45000) initialState "ETH-USD" 500
    (by norm_num [initialState, INITIAL_BALANCE])
  refine ⟨h.1, h.2 (by norm_num) ?_⟩
  intro pos hpos
  simp [initialState, lookupPos] at hpos

/-- Counterexample to C5 as stated: from the initial state, a buy with
usd_amount 0 succeeds and CREATES a position with quantity exactly 0 that
stays in the mapping, so strict positivity is not preserved for every
usd_amount. -/
theorem position_positive_counterexample :
    (execute_buy (fun _ => some 45000) initialState "BTC-USD" 0).1 = true
    ∧ lookupPos (execute_buy (fun _ => some 45000) initialState "BTC-USD" 0).2.positions
        "BTC-USD" = some ⟨0, 45000⟩ := by
  refine ⟨rfl, ?_⟩
  norm_num [execute_buy, initialState, INITIAL_BALANCE, lookupPos, setPos, record_trade]

/-- Claim C5 (amended): strict positivity of every held quantity is
preserved by every `execute_sell` (any usd_amount), and by every
`execute_buy` whose usd_amount is strictly positive when quoted prices are
positive; and a sell whose remainder is ≤ 0 removes the position from the
mapping rather than retaining it. -/
theorem position_positive_preserved (price : String → Option ℚ) (s : BotState)
    (asset : String) (amount : ℚ)
    (hpos : ∀ e ∈ s.positions, 0 < e.2.quantity) :
    (∀ e ∈ (execute_sell price s asset amount).2.positions, 0 < e.2.quantity)
    ∧ (0 < amount → (∀ p : ℚ, price asset = some p → 0 < p) →
        ∀ e ∈ (execute_buy price s asset amount).2.positions, 0 < e.2.quantity)
    ∧ (∀ (pos : Position) (p : ℚ), NodupKeys s.positions →
        lookupPos s.positions asset = some pos → price asset = some p → p ≠ 0 →
        pos.quantity
            - (if amount / p > pos.quantity then pos.quantity else amount / p) ≤ 0 →
        lookupPos (execute_sell price s asset amount).2.positions asset = none) := by
  refine ⟨?_, ?_, ?_⟩
  · rcases hl : lookupPos s.positions asset with _ | pos0
    · simpa [execute_sell, hl] using hpos
    · rcases hp : price asset with _ | p
      · simpa [execute_sell, hl, hp] using hpos
      · by_cases h0 : p = 0
        · simpa [execute_sell, hl, hp, h0] using hpos
        · by_cases hclamp : amount / p > pos0.quantity
          · intro e he
            simp [execute_sell, hl, hp, h0, hclamp, record_trade] at he
            exact hpos e (mem_delPos he)
          · by_cases hrem : pos0.quantity - amount / p ≤ 0
            · intro e he
              have hrem2 : pos0.quantity ≤ amount / p := sub_nonpos.mp hrem
              simp [execute_sell, hl, hp, h0, hclamp, hrem, hrem2, record_trade] at he
              exact hpos e (mem_delPos he)
            · intro e he
              have hrem2 : ¬pos0.quantity ≤ amount / p := by
                rw [← sub_nonpos]
                exact hrem
              simp [execute_sell, hl, hp, h0, hclamp, hrem, hrem2, record_trade] at he
              rcases mem_setPos he with heq | hmem
              · subst heq
                simpa using not_le.mp hrem
              · exact hpos e hmem
  · intro hamt hp2 e he
    rcases hp : price asset with _ | p
    · simp [execute_buy, hp] at he
      exact hpos e he
    · have hppos : 0 < p := hp2 p hp
      by_cases hg : p = 0 ∨ amount > s.cash_balance
      · simp [execute_buy, hp, hg] at he
        exact hpos e he
      · rcases hl : lookupPos s.positions asset with _ | old
        · simp [execute_buy, hp, hg, hl, record_trade] at he
          rcases mem_setPos he with heq | hmem
          · subst heq
            simpa using div_pos hamt hppos
          · exact hpos e hmem
        · have hold : 0 < old.quantity := hpos (asset, old) (lookupPos_mem hl)
          simp [execute_buy, hp, hg, hl, record_trade] at he
          rcases mem_setPos he with heq | hmem
          · subst heq
            have := div_pos hamt hppos
            simp only [Position.mk.injEq]
            show 0 < old.quantity + amount / p
            linarith
          · exact hpos e hmem
  · intro pos p hnd hl hp h0 hrem
    by_cases hclamp : amount / p > pos.quantity
    · simp [execute_sell, hl, hp, h0, hclamp, record_trade,
        lookupPos_delPos_self s.positions asset hnd]
    · have hrem2 : pos.quantity ≤ amount / p := by
        rw [if_neg hclamp] at hrem
        exact sub_nonpos.mp hrem
      simp [execute_sell, hl, hp, h0, hclamp, hrem2, record_trade,
        lookupPos_delPos_self s.positions asset hnd]

/-- Witness for C5 (amended): a 50 USD sell and a 50 USD buy at price 10 on
a state holding 2 ETH-USD both keep every held quantity positive. -/
theorem position_positive_preserved_witness :
    (∀ e ∈ (execute_sell (fun _ => some 10) ethPosState "ETH-USD" 50).2.positions,
      0 < e.2.quantity)
    ∧ (∀ e ∈ (execute_buy (fun _ => some 10) ethPosState "ETH-USD" 50).2.positions,
      0 < e.2.quantity) := by
  have h := position_positive_preserved (fun _ => some 10) ethPosState "ETH-USD" 50
    (by
      intro e he
      rw [show ethPosState.positions = [("ETH-USD", (⟨2, 5⟩ : Position))] from rfl,
        List.mem_singleton] at he
      subst he
      norm_num)
  refine ⟨h.1, h.2.1 (by norm_num) ?_⟩
  intro p hp
  injection hp with hp
  rw [← hp]
  norm_num

/-- Helper: one `record_trade` call keeps the history within the 50-entry
cap. -/
theorem record_trade_length_le (price : String → Option ℚ) (s : BotState)
    (action asset : String) (q p t : ℚ) (h : s.trade_history.length ≤ 50) :
    (record_trade price s action asset q p t).trade_history.length ≤ 50 := by
  simp only [record_trade]
  split
  · simp only [List.length_tail, List.length_append, List.length_singleton]
    omega
  · rename_i hlen
    exact not_lt.mp hlen

/-- Claim C6: after every `record_trade` call from a state within the cap
the history has at most 50 records; below the cap the new record is
appended, at the cap the oldest record is dropped and the rest keep their
order; and both mutators keep the history within the cap. -/
theorem trade_history_cap (price : String → Option ℚ) (s : BotState)
    (action asset : String) (q p t amount : ℚ)
    (h : s.trade_history.length ≤ 50) :
    ((record_trade price s action asset q p t).trade_history.length ≤ 50)
    ∧ (s.trade_history.length < 50 →
        (record_trade price s action asset q p t).trade_history
          = s.trade_history ++ [mkTradeRecord price s action asset q p t])
    ∧ (s.trade_history.length = 50 →
        (record_trade price s action asset q p t).trade_history
          = s.trade_history.tail ++ [mkTradeRecord price s action asset q p t])
    ∧ ((execute_buy price s asset amount).2.trade_history.length ≤ 50)
    ∧ ((execute_sell price s asset amount).2.trade_history.length ≤ 50) := by
  refine ⟨record_trade_length_le price s action asset q p t h, ?_, ?_, ?_, ?_⟩
  · intro hlt
    have hno : ¬50 < s.trade_history.length + 1 := by omega
    simp [record_trade, hno]
  · intro heq
    have h51 : 50 < (s.trade_history ++ [mkTradeRecord price s action asset q p t]).length := by
      simp only [List.length_append, List.length_singleton]
      omega
    simp only [record_trade, if_pos h51]
    rcases hth : s.trade_history with _ | ⟨hd, tl⟩
    · rw [hth] at heq
      simp at heq
    · simp
  · rcases hp : price asset with _ | p
    · simpa [execute_buy, hp] using h
    · by_cases hg : p = 0 ∨ amount > s.cash_balance
      · simpa [execute_buy, hp, hg] using h
      · rcases hl : lookupPos s.positions asset with _ | old <;>
          · simp only [execute_buy, hp, hg, hl, if_neg hg]
            exact record_trade_length_le price _ _ _ _ _ _ h
  · rcases hl : lookupPos s.positions asset with _ | pos0
    · simpa [execute_sell, hl] using h
    · rcases hp : price asset with _ | p
      · simpa [execute_sell, hl, hp] using h
      · by_cases h0 : p = 0
        · simpa [execute_sell, hl, hp, h0] using h
        · simp only [execute_sell, hl, hp, if_neg h0]
          split <;> split <;> exact record_trade_length_le price _ _ _ _ _ _ h

/-- Witness for C6: recording one trade from the (empty-history) initial
state appends the record. -/
theorem trade_history_cap_witness :
    (record_trade (fun _ => none) initialState "buy" "BTC-USD" 1 45000 45000).trade_history
      = initialState.trade_history
        ++ [mkTradeRecord (fun _ => none) initialState "buy" "BTC-USD" 1 45000 45000] := by
  exact (trade_history_cap (fun _ => none) initialState "buy" "BTC-USD" 1 45000 45000 0
    (by simp [initialState])).2.1 (by simp [initialState])

/-- Helper: `record_trade` produces exactly the capped append of the record
it builds. -/
theorem record_trade_history_eq (price : String → Option ℚ) (s : BotState)
    (action asset : String) (q p t : ℚ) :
    (record_trade price s action asset q p t).trade_history
      = capAppend s.trade_history (mkTradeRecord price s action asset q p t) := rfl

/-- Claim C7: failed mutators are atomic — whenever `execute_buy` or
`execute_sell` returns `false` the entire state (cash, positions, history)
is exactly what it was and no record is written — while a `true` return
appends exactly one trade record (under the 50-entry cap). -/
theorem mutator_atomicity (price : String → Option ℚ) (s : BotState)
    (asset : String) (amount : ℚ) :
    ((execute_buy price s asset amount).1 = false →
      (execute_buy price s asset amount).2 = s)
    ∧ ((execute_sell price s asset amount).1 = false →
      (execute_sell price s asset amount).2 = s)
    ∧ ((execute_buy price s asset amount).1 = true →
      ∃ r : TradeRecord,
        (execute_buy price s asset amount).2.trade_history
          = capAppend s.trade_history r)
    ∧ ((execute_sell price s asset amount).1 = true →
      ∃ r : TradeRecord,
        (execute_sell price s asset amount).2.trade_history
          = capAppend s.trade_history r) := by
  refine ⟨execute_buy_fail_state price s asset amount,
    execute_sell_fail_state price s asset amount, ?_, ?_⟩
  · intro htrue
    rcases hp : price asset with _ | p
    · rw [show (execute_buy price s asset amount).1 = false by
        simp [execute_buy, hp]] at htrue
      cases htrue
    · by_cases hg : p = 0 ∨ amount > s.cash_balance
      · rw [show (execute_buy price s asset amount).1 = false by
          simp [execute_buy, hp, hg]] at htrue
        cases htrue
      · rcases hl : lookupPos s.positions asset with _ | old <;>
          · simp only [execute_buy, hp, hl, if_neg hg]
            exact ⟨_, record_trade_history_eq price _ "buy" asset _ p _⟩
  · intro htrue
    rcases hl : lookupPos s.positions asset with _ | pos0
    · rw [show (execute_sell price s asset amount).1 = false by
        simp [execute_sell, hl]] at htrue
      cases htrue
    · rcases hp : price asset with _ | p
      · rw [show (execute_sell price s asset amount).1 = false by
          simp [execute_sell, hl, hp]] at htrue
        cases htrue
      · by_cases h0 : p = 0
        · rw [show (execute_sell price s asset amount).1 = false by
            simp [execute_sell, hl, hp, h0]] at htrue
          cases htrue
        · simp only [execute_sell, hl, hp, if_neg h0]
          split <;> split <;>
            exact ⟨_, record_trade_history_eq price _ "sell" asset _ p _⟩

/-- Witness for C7: a buy with no price feed fails atomically from the
initial state, and a buy at price 2 succeeds and appends one record. -/
theorem mutator_atomicity_witness :
    (execute_buy (fun _ => none) initialState "ADA-USD" 100).2 = initialState
    ∧ ∃ r : TradeRecord,
        (execute_buy (fun _ => some 2) initialState "ADA-USD" 100).2.trade_history
          = capAppend initialState.trade_history r := by
  refine ⟨(mutator_atomicity (fun _ => none) initialState "ADA-USD" 100).1 rfl, ?_⟩
  refine (mutator_atomicity (fun _ => some 2) initialState "ADA-USD" 100).2.2.1 ?_
  norm_num [execute_buy, initialState, INITIAL_BALANCE]

/-- Helper: a trade attempt that reports failure leaves the state
untouched. -/
theorem tradeAttempt_fail_state (price : String → Option ℚ) (s : BotState)
    (best : String × Signal) (trade_amount : ℚ)
    (h : (tradeAttempt price s best trade_amount).1 = false) :
    (tradeAttempt price s best trade_amount).2 = s := by
  unfold tradeAttempt at h ⊢
  by_cases h1 : best.2.signal = "buy" ∧ s.cash_balance ≥ trade_amount
  · rw [if_pos h1] at h ⊢
    exact execute_buy_fail_state price s best.1 trade_amount h
  · rw [if_neg h1] at h ⊢
    by_cases h2 : best.2.signal = "sell"
    · rw [if_pos h2] at h ⊢
      by_cases h3 : get_position_value price s best.1 > 0
      · rw [if_pos h3] at h ⊢
        exact execute_sell_fail_state price s best.1 _ h
      · rw [if_neg h3]
    · rw [if_neg h2]

/-- Claim C8: under cooldown (`now - last_trade_time < TRADE_INTERVAL`) the
decision loop returns no decision and leaves the state untouched; whenever
it returns no decision (failed or absent execution) the state — in
particular `last_trade_time` — is exactly as before, so the cooldown timer
is never reset by an unsuccessful attempt; and whenever it returns a
decision (which happens only on a successful execution) the timer is set
to `now`. -/
theorem decision_loop_cooldown (price : String → Option ℚ)
    (stats : String → Option DayStats) (now : ℚ) (draw : ℚ → ℚ → ℚ) (s : BotState) :
    (now - s.last_trade_time < TRADE_INTERVAL →
      make_trading_decision price stats now draw s = (none, s))
    ∧ ((make_trading_decision price stats now draw s).1 = none →
      (make_trading_decision price stats now draw s).2 = s)
    ∧ (∀ d : Decision, (make_trading_decision price stats now draw s).1 = some d →
      (make_trading_decision price stats now draw s).2.last_trade_time = now) := by
  by_cases hcool : now - s.last_trade_time < TRADE_INTERVAL
  · refine ⟨fun _ => ?_, fun _ => ?_, fun d hd => ?_⟩
    · simp [make_trading_decision, hcool]
    · simp [make_trading_decision, hcool]
    · rw [show (make_trading_decision price stats now draw s).1 = none by
        simp [make_trading_decision, hcool]] at hd
      cases hd
  · refine ⟨fun hc => absurd hc hcool, ?_, ?_⟩
    · intro hnone
      rcases hpb : pickBest (decisionCandidates price stats) with _ | best
      · simp [make_trading_decision, hcool, hpb]
      · by_cases hA : (tradeAttempt price s best
            (draw MIN_TRADE_AMOUNT (min MAX_TRADE_AMOUNT
              (get_portfolio_value price s * MAX_POSITION_SIZE)))).1 = true
        · rw [show (make_trading_decision price stats now draw s).1
              = some ⟨best.1, best.2.signal, best.2.confidence,
                draw MIN_TRADE_AMOUNT (min MAX_TRADE_AMOUNT
                  (get_portfolio_value price s * MAX_POSITION_SIZE))⟩ by
            simp [make_trading_decision, hcool, hpb, hA]] at hnone
          cases hnone
        · have hA2 : (tradeAttempt price s best
              (draw MIN_TRADE_AMOUNT (min MAX_TRADE_AMOUNT
                (get_portfolio_value price s * MAX_POSITION_SIZE)))).1 = false := by
            simpa using hA
          have hfail := tradeAttempt_fail_state price s best
            (draw MIN_TRADE_AMOUNT (min MAX_TRADE_AMOUNT
              (get_portfolio_value price s * MAX_POSITION_SIZE))) hA2
          simp [make_trading_decision, hcool, hpb, hA2, hfail]
    · intro d hd
      rcases hpb : pickBest (decisionCandidates price stats) with _ | best
      · rw [show (make_trading_decision price stats now draw s).1 = none by
          simp [make_trading_decision, hcool, hpb]] at hd
        cases hd
      · by_cases hA : (tradeAttempt price s best
            (draw MIN_TRADE_AMOUNT (min MAX_TRADE_AMOUNT
              (get_portfolio_value price s * MAX_POSITION_SIZE)))).1 = true
        · simp [make_trading_decision, hcool, hpb, hA]
        · have hA2 : (tradeAttempt price s best
              (draw MIN_TRADE_AMOUNT (min MAX_TRADE_AMOUNT
                (get_portfolio_value price s * MAX_POSITION_SIZE)))).1 = false := by
            simpa using hA
          rw [show (make_trading_decision price stats now draw s).1 = none by
            simp [make_trading_decision, hcool, hpb, hA2]] at hd
          cases hd

/-- Witness for C8: at `now = 10` the initial state (last trade at 0) is in
cooldown, so the loop returns no decision and the state is untouched. -/
theorem decision_loop_cooldown_witness :
    make_trading_decision (fun _ => none) (fun _ => none) 10 (fun _ _ => 50) initialState
      = (none, initialState) := by
  exact (decision_loop_cooldown (fun _ => none) (fun _ => none) 10 (fun _ _ => 50)
    initialState).1 (by norm_num [initialState, TRADE_INTERVAL])

/-- Claim C10: a buy or sell on asset A leaves the stored entry of every
other asset B untouched, and a successful sell that keeps its position
never changes the stored average cost — only the quantity. -/
theorem mutator_frame (price : String → Option ℚ) (s : BotState)
    (assetA : String) (amount : ℚ) (assetB : String) (hne : assetB ≠ assetA) :
    (lookupPos (execute_buy price s assetA amount).2.positions assetB
      = lookupPos s.positions assetB)
    ∧ (lookupPos (execute_sell price s assetA amount).2.positions assetB
      = lookupPos s.positions assetB)
    ∧ (NodupKeys s.positions →
        ∀ pos pos2 : Position, lookupPos s.positions assetA = some pos →
        lookupPos (execute_sell price s assetA amount).2.positions assetA = some pos2 →
        pos2.avg_price = pos.avg_price) := by
  refine ⟨?_, ?_, ?_⟩
  · rcases hp : price assetA with _ | p
    · simp [execute_buy, hp]
    · by_cases hg : p = 0 ∨ amount > s.cash_balance
      · simp [execute_buy, hp, hg]
      · rcases hl : lookupPos s.positions assetA with _ | old <;>
          simp [execute_buy, hp, hg, hl, record_trade,
            lookupPos_setPos_ne _ _ _ _ hne]
  · rcases hl : lookupPos s.positions assetA with _ | pos0
    · simp [execute_sell, hl]
    · rcases hp : price assetA with _ | p
      · simp [execute_sell, hl, hp]
      · by_cases h0 : p = 0
        · simp [execute_sell, hl, hp, h0]
        · simp only [execute_sell, hl, hp, if_neg h0]
          split <;> split <;>
            simp [record_trade, lookupPos_setPos_ne _ _ _ _ hne,
              lookupPos_delPos_ne _ _ _ hne]
  · intro hnd pos pos2 hlA hlA2
    rcases hp : price assetA with _ | p
    · rw [show (execute_sell price s assetA amount).2 = s by
        simp [execute_sell, hlA, hp]] at hlA2
      rw [hlA] at hlA2
      injection hlA2 with h2
      rw [← h2]
    · by_cases h0 : p = 0
      · rw [show (execute_sell price s assetA amount).2 = s by
          simp [execute_sell, hlA, hp, h0]] at hlA2
        rw [hlA] at hlA2
        injection hlA2 with h2
        rw [← h2]
      · simp only [execute_sell, hlA, hp, if_neg h0, record_trade_positions_eq] at hlA2
        split at hlA2 <;> split at hlA2
        all_goals
          simp only [lookupPos_delPos_self s.positions assetA hnd,
            lookupPos_setPos_self] at hlA2
        all_goals
          cases hlA2
        all_goals
          rfl

/-- Witness for C10: trading BTC-USD does not touch the stored ETH-USD
entry. -/
theorem mutator_frame_witness :
    lookupPos (execute_buy (fun _ => some 10) ethPosState "BTC-USD" 50).2.positions
        "ETH-USD"
      = lookupPos ethPosState.positions "ETH-USD"
    ∧ lookupPos (execute_sell (fun _ => some 10) ethPosState "BTC-USD" 50).2.positions
        "ETH-USD"
      = lookupPos ethPosState.positions "ETH-USD" := by
  have h := mutator_frame (fun _ => some 10) ethPosState "BTC-USD" 50 "ETH-USD"
    (by decide)
  exact ⟨h.1, h.2.1⟩

end TradingBot
